import Mathlib

/-!
Verification of the TInCuP specification against its Python sources.

The development shallow-embeds the argument-shorthand parser and
specification compiler of `cpo_tools/src/process.py`, the generic-target
analyzer of `cpo_tools/src/trait_impl.py`, and two structural checks of
`cpo_tools/cpo_verification_enhanced.py`.  Python strings are modelled as
`List Char`; the handful of regular expressions the code uses are small
and deterministic (no backtracking can change their outcome), so each is
embedded as an explicit scanning function.
-/

namespace TInCuP

/-- Python strings are modelled as lists of characters. -/
abbrev Str := List Char

/-- An apostrophe character (used inside several source error messages). -/
def apos : Char := Char.ofNat 39

/-- The three-dot pack-ellipsis token. -/
def dots3 : Str := ("...").toList

/-- ASCII whitespace, as recognised by Python `str.strip` and `\s`.
Python additionally treats some non-ASCII code points as whitespace;
the model diverges only on such non-ASCII inputs. -/
def isSpaceCh (c : Char) : Bool :=
  c = ' ' || c = '\t' || c = '\n' || c = '\r' || c = '\x0b' || c = '\x0c'

/-- Python `str.lstrip()`. -/
def lstrip (s : Str) : Str := s.dropWhile isSpaceCh

/-- Python `str.rstrip()`. -/
def rstrip (s : Str) : Str := (s.reverse.dropWhile isSpaceCh).reverse

/-- Python `str.strip()`. -/
def strip (s : Str) : Str := rstrip (lstrip s)

/-- Boolean prefix test on character lists. -/
def hasPrefixCh : Str → Str → Bool
  | [], _ => true
  | _ :: _, [] => false
  | p :: ps, c :: cs => (p == c) && hasPrefixCh ps cs

/-- Boolean suffix test on character lists (Python `str.endswith`). -/
def hasSuffixCh (pat s : Str) : Bool := hasPrefixCh pat.reverse s.reverse

/-- Substring test (Python `pat in s`). -/
def hasSubstr (pat : Str) : Str → Bool
  | [] => pat.isEmpty
  | c :: t => hasPrefixCh pat (c :: t) || hasSubstr pat t

/-- Fuelled worker for `replaceSub`; the fuel bounds the number of scan
steps and `s.length` is always enough, since every step consumes at
least one character of `s`. -/
def replaceSubAux (pat repl : Str) : Nat → Str → Str
  | 0, s => s
  | _ + 1, [] => []
  | fuel + 1, c :: t =>
    if hasPrefixCh pat (c :: t) && !pat.isEmpty then
      repl ++ replaceSubAux pat repl fuel (t.drop (pat.length - 1))
    else
      c :: replaceSubAux pat repl fuel t

/-- Python `str.replace(pat, repl)`: leftmost, non-overlapping. -/
def replaceSub (pat repl s : Str) : Str := replaceSubAux pat repl s.length s

/-- A word character for the purposes of the `\b` regex boundary. -/
def isWordCh (c : Char) : Bool := c.isAlphanum || c = '_'

/-- Word-boundary test against the character preceding the scan position. -/
def prevNonWord : Option Char → Bool
  | none => true
  | some c => !isWordCh c

/-- Word-boundary test against the first character after a match. -/
def headNonWord : Str → Bool
  | [] => true
  | c :: _ => !isWordCh c

/-- Fuelled worker for `stripCV`, embedding
`re.sub(r"\bconst\b|\bvolatile\b", "", s)` from `parse_cpp_type`
(`process.py`).  `prev` is the character preceding the scan position in
the original string. -/
def stripCVAux : Nat → Option Char → Str → Str
  | 0, _, s => s
  | _ + 1, _, [] => []
  | fuel + 1, prev, c :: t =>
    if prevNonWord prev && hasPrefixCh (("const").toList) (c :: t)
        && headNonWord ((c :: t).drop 5) then
      stripCVAux fuel (some 't') ((c :: t).drop 5)
    else if prevNonWord prev && hasPrefixCh (("volatile").toList) (c :: t)
        && headNonWord ((c :: t).drop 8) then
      stripCVAux fuel (some 'e') ((c :: t).drop 8)
    else
      c :: stripCVAux fuel (some c) t

/-- Removal of whole-word `const` and `volatile` qualifiers. -/
def stripCV (s : Str) : Str := stripCVAux s.length none s

/-- Embedding of `parse_cpp_type` (`process.py`): strips `const`/`volatile`
words, then all `&`, `*` and `...` markers, then surrounding whitespace. -/
def parse_cpp_type (full_type : Str) : Str :=
  strip (replaceSub dots3 []
    (replaceSub (("*").toList) []
      (replaceSub (("&").toList) [] (stripCV full_type))))

/-- Split at the last occurrence of a colon, Python `s.rsplit(":", 1)`;
`none` when the string has no colon (which makes `process_input` raise a
`MalformedArgument` error). -/
def splitLastColon : Str → Option (Str × Str)
  | [] => none
  | c :: rest =>
    match splitLastColon rest with
    | some (a, b) => some (c :: a, b)
    | none => if c = ':' then some ([], rest) else none

/-- One parsed shorthand argument, the `arg_data` dictionary built by the
argument loop of `process_input` (`process.py`).  The `base` field is
present exactly when the argument is generic. -/
structure Arg where
  name : Str
  base : Option Str
  full : Str
  is_variadic : Bool
  is_forwarding : Bool
deriving DecidableEq

/-- Error message for a shorthand pair without a colon separator. -/
def malformedArgMsg (pairStr : Str) : Str :=
  ("Invalid argument format ").toList ++ [apos] ++ pairStr ++ [apos]
    ++ (". Expected format ").toList ++ [apos] ++ ("type: name").toList ++ [apos]

/-- Body of the argument loop of `process_input` (`process.py` lines
118-146) once the shorthand pair has split into a type part and a name
part: strip both, detect the generic marker, pack ellipsis and
forwarding qualifier.  Here `strip rawType` is the `full_type` of the
source, `(strip rawType).drop 1` its `type_name`, and
`parse_cpp_type ((strip rawType).drop 1)` its `base_type`. -/
def parseArgPairBody (rawType rawName : Str) : Except Str Arg :=
  if (strip rawType).head? = some '$' then
    if hasSuffixCh (("&&").toList) (strip ((strip rawType).drop 1))
        || hasSuffixCh (("&&...").toList) (strip ((strip rawType).drop 1)) then
      .ok ⟨strip rawName, some (parse_cpp_type ((strip rawType).drop 1)),
           parse_cpp_type ((strip rawType).drop 1) ++ ("&&").toList,
           hasSubstr dots3 (strip rawType), true⟩
    else
      .ok ⟨strip rawName, some (parse_cpp_type ((strip rawType).drop 1)),
           replaceSub dots3 [] ((strip rawType).drop 1),
           hasSubstr dots3 (strip rawType), false⟩
  else
    .ok ⟨strip rawName, none, replaceSub dots3 [] (strip rawType),
         hasSubstr dots3 (strip rawType), false⟩

/-- Embedding of one iteration of the argument loop of `process_input`
(`process.py` lines 116-150): split on the last colon (raising a
malformed-argument error when there is none) and process the two
parts. -/
def parseArgPair (pairStr : Str) : Except Str Arg :=
  match splitLastColon pairStr with
  | none => .error (malformedArgMsg pairStr)
  | some (rawType, rawName) => parseArgPairBody rawType rawName

/-- The whole argument loop: parse every shorthand pair, aborting on the
first malformed one (the Python loop raises on it). -/
def processArgs (raw_args : List Str) : Except Str (List Arg) :=
  raw_args.mapM parseArgPair

/-- The constraint-argument contribution of one argument
(`process.py` line 153): forwarding arguments contribute their bare
base type, all others their rendered type. -/
def conceptContrib (a : Arg) : Str :=
  if a.is_forwarding then a.base.getD [] else a.full

/-- Comma-space separator used by all joined strings. -/
def commaSep : Str := (", ").toList

/-- The rendered parameter-list entry for one argument
(`process.py` line 163). -/
def argPairEntry (a : Arg) : Str :=
  a.full ++ (if a.is_variadic then dots3 else []) ++ [' '] ++ a.name

/-- The parameter-list string `arg_pairs_str` (`process.py` lines 162-165). -/
def argPairsStr (args : List Arg) : Str :=
  List.intercalate commaSep (args.map argPairEntry)

/-- The forwarding/argument expression for one argument
(`process.py` lines 167-174).  Note the source appends the pack-expansion
suffix when `is_forwarding` is set, not when `is_variadic` is set. -/
def argNameEntry (a : Arg) : Str :=
  if a.is_forwarding then
    ("std::forward<").toList ++ a.base.getD [] ++ (">(").toList ++ a.name
      ++ (")").toList ++ (if a.is_forwarding then dots3 else [])
  else
    a.name ++ (if a.is_variadic then dots3 else [])

/-- The argument-forwarding string `arg_names_str` (`process.py` 166-175). -/
def argNamesStr (args : List Arg) : Str :=
  List.intercalate commaSep (args.map argNameEntry)

/-- A quoted fragment of an error message. -/
def q (s : String) : Str := [apos] ++ s.toList ++ [apos]

/-- Lexicographic comparison of strings by code point (Python `<`). -/
def ltStr : Str → Str → Bool
  | [], [] => false
  | [], _ :: _ => true
  | _ :: _, [] => false
  | a :: as, b :: bs => if a = b then ltStr as bs else decide (a < b)

/-- Insertion step of the sort used to model Python `sorted`. -/
def insertSorted (x : Str) : List Str → List Str
  | [] => [x]
  | y :: ys => if ltStr x y then x :: y :: ys else y :: insertSorted x ys

/-- Python `sorted` on a list of strings. -/
def sortStrs (l : List Str) : List Str := l.foldr insertSorted []

/-- Set insertion (Python `set.add`), modelled on ordered lists; the
order is irrelevant because every use is followed by `sorted`. -/
def addUnique (acc : List Str) (x : Str) : List Str :=
  if x ∈ acc then acc else acc ++ [x]

/-- The `generic_base_types` sets of `process_input` (`process.py` lines
114, 130-133): base names of generic arguments, split by pack status. -/
def genericBases (args : List Arg) (variadic : Bool) : List Str :=
  args.foldl (fun acc a =>
    match a.base with
    | some b => if a.is_variadic = variadic then addUnique acc b else acc
    | none => acc) []

/-- The `runtime_dispatch` JSON object as handed to `process_input`:
each key may be absent, and `options`, when present, is an array of
strings. -/
structure DispatchCfg where
  dtype : Option Str
  dispatch_arg : Option Str
  options : Option (List Str)
deriving DecidableEq

/-- The validated `dispatch_info` record (`process.py` lines 87-91 and
105-109). -/
structure DispatchInfo where
  dtype : Str
  dispatch_arg : Str
  options : List Str
deriving DecidableEq

/-- Python falsiness of an optional string (`if not dispatch_arg`). -/
def falsyOptStr : Option Str → Bool
  | none => true
  | some s => s.isEmpty

/-- Default options for boolean dispatch (`process.py` line 81). -/
def defaultBoolOptions : List Str := [("first_tag").toList, ("second_tag").toList]

/-- Error message for a boolean dispatch without a dispatch argument. -/
def boolNeedsArgMsg : Str :=
  ("runtime_dispatch of type ").toList ++ q ("bool") ++ (" requires a ").toList
    ++ q ("dispatch_arg") ++ (" key.").toList

/-- Error message for boolean dispatch options of the wrong shape. -/
def boolOptionsMsg : Str :=
  ("runtime_dispatch ").toList ++ q ("options") ++ (" for ").toList ++ q ("bool")
    ++ (" type must be an array of two strings.").toList

/-- Error message for a string dispatch without a dispatch argument. -/
def stringNeedsArgMsg : Str :=
  ("runtime_dispatch of type ").toList ++ q ("string") ++ (" requires a ").toList
    ++ q ("dispatch_arg") ++ (" key.").toList

/-- Error message for string dispatch options of the wrong shape. -/
def stringOptionsMsg : Str :=
  ("runtime_dispatch ").toList ++ q ("options") ++ (" for ").toList ++ q ("string")
    ++ (" type must be an array of at least two strings.").toList

/-- Embedding of the runtime-dispatch validation of `process_input`
(`process.py` lines 69-109).  A `type` other than `bool` or `string`
(or a missing one) falls through every branch and leaves
`dispatch_info` as `None`. -/
def processDispatch : Option DispatchCfg → Except Str (Option DispatchInfo)
  | none => .ok none
  | some cfg =>
    if cfg.dtype = some (("bool").toList) then
      if falsyOptStr cfg.dispatch_arg then .error boolNeedsArgMsg
      else
        let options := cfg.options.getD defaultBoolOptions
        if options.length ≠ 2 then .error boolOptionsMsg
        else .ok (some ⟨("bool").toList, cfg.dispatch_arg.getD [], options⟩)
    else if cfg.dtype = some (("string").toList) then
      if falsyOptStr cfg.dispatch_arg then .error stringNeedsArgMsg
      else
        match cfg.options with
        | none => .error stringOptionsMsg
        | some options =>
          if options.length < 2 then .error stringOptionsMsg
          else .ok (some ⟨("string").toList, cfg.dispatch_arg.getD [], options⟩)
    else .ok none

/-- The constraint-type entry of one argument, with its pack suffix
(`process.py` lines 187-190). -/
def conceptTypeEntry (a : Arg) : Str :=
  conceptContrib a ++ (if a.is_variadic then dots3 else [])

/-- Whether an argument survives the `_no_dispatch` filtering
(`process.py` lines 157-160). -/
def keepNoDispatch (dinfo : Option DispatchInfo) (a : Arg) : Bool :=
  match dinfo with
  | none => true
  | some d => !(a.name == d.dispatch_arg)

/-- The synthesized boolean dispatch parameter (`process.py` line 181). -/
def boolDispatchParam (dispatch_arg : Str) : Str :=
  ("bool ").toList ++ dispatch_arg ++ (" = false").toList

/-- The suffix appended to every canonical constraint string. -/
def ftorSuffix : Str := ("_ftor").toList

/-- The compiled rendering context: the fields of `template_context`
(and the derived `has_generics`/`arg_types`) that the claims concern
(`process.py` lines 202-229).  Template rendering itself is an external
collaborator and is not modelled. -/
structure Ctx where
  cpo_name : Str
  arg_pairs : Str
  arg_names : Str
  concept_types : Str
  canonical_concept_args : Str
  has_variadic : Bool
  dispatch_info : Option DispatchInfo
  arg_pairs_no_dispatch : Str
  arg_names_no_dispatch : Str
  concept_types_no_dispatch : Str
  arg_types : Str
  has_generics : Bool
deriving DecidableEq

/-- Assembly of the rendering context from parsed arguments and
validated dispatch info (`process.py` lines 152-229).  In
`concept_types_no_dispatch` (lines 214-217) the source enumerates the
filtered constraint list but indexes the unfiltered `parsed_args[i]`
for the pack suffix; the embedding reproduces that indexing, including
its misalignment when an argument named like the dispatch argument has
been filtered out. -/
def buildCtx (cpo_name : Str) (args : List Arg) (dinfo : Option DispatchInfo) : Ctx :=
  let arg_pairs_base := argPairsStr args
  let arg_names := argNamesStr args
  let arg_pairs :=
    match dinfo with
    | some d =>
      if d.dtype = ("bool").toList then
        if arg_pairs_base ≠ [] then
          arg_pairs_base ++ commaSep ++ boolDispatchParam d.dispatch_arg
        else boolDispatchParam d.dispatch_arg
      else arg_pairs_base
    | none => arg_pairs_base
  let concept_types := List.intercalate commaSep (args.map conceptTypeEntry)
  let canonical :=
    if concept_types ≠ [] then cpo_name ++ ftorSuffix ++ commaSep ++ concept_types
    else cpo_name ++ ftorSuffix
  let nonVar := genericBases args false
  let isVar := genericBases args true
  let has_generics := !nonVar.isEmpty || !isVar.isEmpty
  let arg_types :=
    if has_generics then
      List.intercalate commaSep
        ((sortStrs nonVar).map (fun t => ("typename ").toList ++ t)
          ++ (sortStrs isVar).map (fun t => ("typename... ").toList ++ t))
    else []
  { cpo_name := cpo_name
    arg_pairs := arg_pairs
    arg_names := arg_names
    concept_types := concept_types
    canonical_concept_args := canonical
    has_variadic := args.any (·.is_variadic)
    dispatch_info := dinfo
    arg_pairs_no_dispatch := arg_pairs_base
    arg_names_no_dispatch := arg_names
    concept_types_no_dispatch :=
      List.intercalate commaSep
        (((args.filter (keepNoDispatch dinfo)).map conceptContrib).mapIdx
          (fun i t =>
            t ++ (if (args.getD i ⟨[], none, [], false, false⟩).is_variadic
                  then dots3 else [])))
    arg_types := arg_types
    has_generics := has_generics }

/-- Embedding of `process_input` (`process.py`) for direct (`VIM_MODE`)
input, up to the rendering context: dispatch validation, the argument
loop, and the derived strings.  Errors abort the compile with no
context, as the Python `ValueError` does. -/
def compileSpec (cpo_name : Str) (raw_args : List Str)
    (dispatch : Option DispatchCfg) : Except Str Ctx :=
  match processDispatch dispatch with
  | .error e => .error e
  | .ok dinfo =>
    match processArgs raw_args with
    | .error e => .error e
    | .ok args => .ok (buildCtx cpo_name args dinfo)

/-- Python `s.split(',')`. -/
def splitComma : Str → List Str
  | [] => [[]]
  | c :: t =>
    if c = ',' then [] :: splitComma t
    else
      match splitComma t with
      | h :: r => (c :: h) :: r
      | [] => [[c]]

/-- Scan to the first `>` of a string; fails if a newline comes first or
no `>` exists.  This models the `(.+?)>` part of `re.search(r"<(.+?)>")`
in `_analyze_target` (`trait_impl.py`): `.` cannot cross a newline and
the non-greedy group stops at the first possible `>`. -/
def scanToGt : Str → Option (Str × Str)
  | [] => none
  | c :: t =>
    if c = '>' then some ([], t)
    else if c = '\n' then none
    else
      match scanToGt t with
      | some (a, b) => some (c :: a, b)
      | none => none

/-- The bracket interior starting right after a `<`: at least one
character, ended by the first `>` found after it. -/
def innerUpToGt : Str → Option (Str × Str)
  | [] => none
  | c :: t =>
    if c = '\n' then none
    else
      match scanToGt t with
      | some (a, b) => some (c :: a, b)
      | none => none

/-- Embedding of `re.search(r"<(.+?)>", s)`: the first `<` from which a
nonempty newline-free group terminated by `>` can be matched, returning
the text before the match, the group, and the text after it. -/
def findAngle : Str → Option (Str × Str × Str)
  | [] => none
  | c :: t =>
    if c = '<' then
      match innerUpToGt t with
      | some (inner, post) => some ([], inner, post)
      | none =>
        match findAngle t with
        | some (pre, inner, post) => some (c :: pre, inner, post)
        | none => none
    else
      match findAngle t with
      | some (pre, inner, post) => some (c :: pre, inner, post)
      | none => none

/-- Identifier test, `re.fullmatch(r"[A-Za-z_][A-Za-z0-9_]*", name)`. -/
def isIdent : Str → Bool
  | [] => false
  | c :: t => (c.isAlpha || c = '_') && t.all isWordCh

/-- Bare-pack test, `re.fullmatch(r"[A-Za-z_][A-Za-z0-9_]*\s*\.\.\.", tok)`:
an identifier, optional whitespace, then exactly the ellipsis. -/
def barePack : Str → Bool
  | [] => false
  | c :: rest =>
    (c.isAlpha || c = '_') && ((rest.dropWhile isWordCh).dropWhile isSpaceCh = dots3)

/-- State threaded through the token loop of `_analyze_target`
(`trait_impl.py`): declared template parameters and rewritten tokens. -/
structure TAState where
  template_params : List Str
  new_parts : List Str
deriving DecidableEq

/-- A parameter declaration as rendered by `add_param`. -/
def paramDecl (name : Str) (is_pack : Bool) : Str :=
  ("typename").toList ++ (if is_pack then dots3 else []) ++ [' '] ++ name

/-- Embedding of `add_param` (`trait_impl.py` lines 40-43): append the
declaration unless it is already present. -/
def addParam (tps : List Str) (name : Str) (is_pack : Bool) : List Str :=
  let decl := paramDecl name is_pack
  if decl ∈ tps then tps else tps ++ [decl]

/-- The hard error for an unmarked bare pack token
(`trait_impl.py` lines 73-76). -/
def barePackMsg (tok : Str) : Str :=
  ("Invalid impl-target token ").toList ++ [apos] ++ tok ++ [apos]
    ++ (": use ").toList ++ [apos] ++ ['$'] ++ tok ++ [apos]
    ++ (" to declare a template parameter pack").toList

/-- One iteration of the token loop of `_analyze_target`
(`trait_impl.py` lines 45-78); `tok.drop 1` is the `base` of the source
and `(tok.drop 1).take ((tok.drop 1).length - 3)` its `name = base[:-3]`. -/
def step (st : TAState) (tok : Str) : Except Str TAState :=
  if tok = [] then .ok st
  else if tok = dots3 then
    .ok ⟨addParam st.template_params (("P").toList) true,
         st.new_parts ++ [("P...").toList]⟩
  else if tok.head? = some '$' then
    if hasSuffixCh dots3 (tok.drop 1) then
      if isIdent ((tok.drop 1).take ((tok.drop 1).length - 3)) then
        .ok ⟨addParam st.template_params ((tok.drop 1).take ((tok.drop 1).length - 3)) true,
             st.new_parts ++ [(tok.drop 1).take ((tok.drop 1).length - 3) ++ dots3]⟩
      else .ok ⟨st.template_params, st.new_parts ++ [tok.drop 1]⟩
    else
      if isIdent (tok.drop 1) then
        .ok ⟨addParam st.template_params (tok.drop 1) false, st.new_parts ++ [tok.drop 1]⟩
      else .ok ⟨st.template_params, st.new_parts ++ [tok.drop 1]⟩
  else if barePack tok then .error (barePackMsg tok)
  else .ok ⟨st.template_params, st.new_parts ++ [tok]⟩

/-- The whole token loop, starting from empty parameter and token lists. -/
def runTokens (tokens : List Str) : Except Str TAState :=
  tokens.foldlM step ⟨[], []⟩

/-- The parameter-type text rendered for one argument inside the
parameter-list string: the `full` type followed by the pack suffix
(the type part of `argPairEntry`). -/
def renderedParamType (a : Arg) : Str :=
  a.full ++ (if a.is_variadic then dots3 else [])

/-- Round-trip re-derivation of one constraint-argument type: the
rendered parameter type of the compiled parameter-list string is fed
back through the shorthand argument parser (as `<type>: <name>`) and
the constraint contribution of the re-parsed argument is taken. -/
def reparseConstraintType (a : Arg) : Except Str Str :=
  (parseArgPair (renderedParamType a ++ (": ").toList ++ a.name)).map conceptContrib

/-- Round-trip re-derivation of the whole constraint-argument list from
the re-parse of the rendered parameter-list entries. -/
def reparseConstraintTypes (args : List Arg) : Except Str (List Str) :=
  args.mapM reparseConstraintType

/-- Whether a rendered declaration declares a parameter pack. -/
def isPackDecl (d : Str) : Bool := hasPrefixCh (("typename...").toList) d

/-- Whether every plain parameter declaration precedes every pack
declaration in the list (the ordering asserted by the specification). -/
def plainBeforePack (ds : List Str) : Bool :=
  (ds.dropWhile (fun d => !isPackDecl d)).all isPackDecl

/-- The parameter name carried by a rendered declaration: the text after
`typename`/`typename...` and the space (inverse of `paramDecl`). -/
def declaredName (d : Str) : Str :=
  lstrip (if hasPrefixCh (("typename...").toList) d then d.drop 11 else d.drop 8)

/-- The parameter declaration a single token of the bracketed argument
list introduces, if any — the per-token classification of the loop of
`_analyze_target`, without the state (same conditions as `step`, in the
same order). -/
def declOfToken (tok : Str) : Option Str :=
  if tok = [] then none
  else if tok = dots3 then some (paramDecl (("P").toList) true)
  else if tok.head? = some '$' then
    if hasSuffixCh dots3 (tok.drop 1) then
      if isIdent ((tok.drop 1).take ((tok.drop 1).length - 3)) then
        some (paramDecl ((tok.drop 1).take ((tok.drop 1).length - 3)) true)
      else none
    else
      if isIdent (tok.drop 1) then some (paramDecl (tok.drop 1) false) else none
  else none

/-- Specification-side description of first-reference order: the
declaration sequence induced by the tokens, deduplicated keeping first
occurrences. -/
def firstRefDecls (tokens : List Str) : List Str :=
  (tokens.filterMap declOfToken).foldl addUnique []

/-- Embedding of `_analyze_target` (`trait_impl.py`), split so that the
parameter-declaration list is visible before it is rendered into the
`template<...>` string.  In the no-angle-bracket branch the source
returns the literal `template<class... P>`, represented here by the
single declaration `class... P`. -/
def analyzeTargetCore (target : Str) : Except Str (List Str × Str) :=
  match findAngle (strip target) with
  | none =>
    if hasSubstr dots3 (strip target) then
      .ok ([("class... P").toList], replaceSub dots3 (("P...").toList) (strip target))
    else .ok ([], strip target)
  | some (pre, inner, post) =>
    match runTokens ((splitComma inner).map strip) with
    | .error e => .error e
    | .ok st =>
      .ok (st.template_params,
        pre ++ ['<'] ++ List.intercalate commaSep st.new_parts ++ ['>'] ++ post)

/-- The declared template-parameter list of a target expression. -/
def analyzeTargetParams (target : Str) : Except Str (List Str) :=
  (analyzeTargetCore target).map (·.1)

/-- The `(template_params, specialized_target)` pair returned by
`_analyze_target`, with the parameter list rendered as in the source. -/
def analyzeTarget (target : Str) : Except Str (Str × Str) :=
  match analyzeTargetCore target with
  | .error e => .error e
  | .ok (params, specialized) =>
    .ok ((if params ≠ [] then
            ("template<").toList ++ List.intercalate commaSep params ++ ['>']
          else []), specialized)

/-- The literal scanned for by the noexcept-propagation check
(`cpo_verification_enhanced.py` line 119). -/
def noexceptPat : Str := ("noexcept(nothrow_tag_invocable_c<").toList

/-- Match of `noexcept\(nothrow_tag_invocable_c<([^>]+)>\)` at the head
of the string, returning the captured group and the rest of the input.
The class `[^>]+` cannot pass a `>`, so the group is the maximal run of
non-`>` characters and no backtracking can change the result. -/
def matchNoexceptAt (s : Str) : Option (Str × Str) :=
  if hasPrefixCh noexceptPat s then
    let t := s.drop noexceptPat.length
    let grp := t.takeWhile (fun c => c ≠ '>')
    match grp, t.dropWhile (fun c => c ≠ '>') with
    | _ :: _, '>' :: ')' :: r => some (grp, r)
    | _, _ => none
  else none

/-- Fuelled left-to-right non-overlapping scan (`re.findall`). -/
def noexceptFindallAux : Nat → Str → List Str
  | 0, _ => []
  | _ + 1, [] => []
  | fuel + 1, c :: t =>
    match matchNoexceptAt (c :: t) with
    | some (grp, rest) => grp :: noexceptFindallAux fuel rest
    | none => noexceptFindallAux fuel t

/-- All captured groups of the noexcept pattern, in order. -/
def noexceptFindall (s : Str) : List Str := noexceptFindallAux s.length s

/-- Error message for an unexpected number of noexcept specifications. -/
def incorrectNoexceptMsg : Str :=
  ("Incorrect number of noexcept specifications").toList

/-- Error message for a noexcept specification naming the wrong functor. -/
def noexceptMismatchMsg : Str :=
  ("Noexcept specification doesn").toList ++ [apos] ++ ("t match CPO name").toList

/-- Embedding of `CPOVerifier.verify_noexcept_propagation`
(`cpo_verification_enhanced.py` lines 116-130), applied to a discovered
construct with the given name and text. -/
def verify_noexcept_propagation (name content : Str) : List Str :=
  let ms := noexceptFindall content
  if ms.length ≠ 1 then [incorrectNoexceptMsg]
  else if hasSubstr (name ++ ftorSuffix) (ms.headD []) then []
  else [noexceptMismatchMsg]

/-- Literal matcher: consume `lit` or fail. -/
def expectLit (lit s : Str) : Option Str :=
  if hasPrefixCh lit s then some (s.drop lit.length) else none

/-- Regex `\s+`: at least one whitespace character, maximal munch (the
following token never starts with whitespace, so this is faithful). -/
def expectWs1 (s : Str) : Option Str :=
  match s with
  | c :: _ => if isSpaceCh c then some (s.dropWhile isSpaceCh) else none
  | [] => none

/-- Regex `\s*`. -/
def skipWs (s : Str) : Str := s.dropWhile isSpaceCh

/-- The `\s*;` tail of the variadic-flag pattern. -/
def expectSemiTail (s : Str) : Option Unit :=
  (expectLit [';'] (skipWs s)).map (fun _ => ())

/-- Match of the body of
`\binline\s+static\s+constexpr\s+bool\s+<word>\s*=\s*(true|false)\s*;`
at the head of the string, returning the captured boolean. -/
def matchFlagFrom (word s : Str) : Option Bool := do
  let s ← expectLit (("inline").toList) s
  let s ← expectWs1 s
  let s ← expectLit (("static").toList) s
  let s ← expectWs1 s
  let s ← expectLit (("constexpr").toList) s
  let s ← expectWs1 s
  let s ← expectLit (("bool").toList) s
  let s ← expectWs1 s
  let s ← expectLit word s
  let s := skipWs s
  let s ← expectLit ['='] s
  let s := skipWs s
  match expectLit (("true").toList) s with
  | some r => (expectSemiTail r).map (fun _ => true)
  | none =>
    match expectLit (("false").toList) s with
    | some r => (expectSemiTail r).map (fun _ => false)
    | none => none

/-- `re.search` for the flag pattern: try every position left to right,
honouring the leading `\b` against the previous character. -/
def searchFlagAux (word : Str) : Option Char → Str → Option Bool
  | _, [] => none
  | prev, c :: t =>
    match (if prevNonWord prev then matchFlagFrom word (c :: t) else none) with
    | some b => some b
    | none => searchFlagAux word (some c) t

/-- The first match of the declared-flag pattern in the text. -/
def searchFlag (word content : Str) : Option Bool :=
  searchFlagAux word none content

/-- The declared variadic flag of a construct: `is_variadic` if declared,
otherwise the legacy `has_variadic_params`
(`cpo_verification_enhanced.py` lines 248-259). -/
def flagOf (content : Str) : Option Bool :=
  match searchFlag (("is_variadic").toList) content with
  | some b => some b
  | none => searchFlag (("has_variadic_params").toList) content

/-- Match of `operator\(\)\s*\(([^)]*)\)` at the head of the string,
returning the (possibly empty) parameter-list group and the rest. -/
def matchOpAt (s : Str) : Option (Str × Str) :=
  match expectLit (("operator()").toList) s with
  | none => none
  | some s1 =>
    match skipWs s1 with
    | '(' :: t =>
      match t.dropWhile (fun c => c ≠ ')') with
      | ')' :: r => some (t.takeWhile (fun c => c ≠ ')'), r)
      | _ => none
    | _ => none

/-- Fuelled `re.findall` scan for operator parameter lists. -/
def operatorParamsAux : Nat → Str → List Str
  | 0, _ => []
  | _ + 1, [] => []
  | fuel + 1, c :: t =>
    match matchOpAt (c :: t) with
    | some (grp, rest) => grp :: operatorParamsAux fuel rest
    | none => operatorParamsAux fuel t

/-- Every `operator()` parameter list found in the construct text. -/
def operatorParams (content : Str) : List Str :=
  operatorParamsAux content.length content

/-- Error message for a missing variadic flag declaration. -/
def missingFlagMsg (name : Str) : Str :=
  name ++ (": missing inline static constexpr bool is_variadic flag (or legacy has_variadic_params)").toList

/-- Error message for a true flag with no pack in any signature. -/
def trueNoPackMsg (name : Str) : Str :=
  name ++ (": is_variadic=true but no parameter pack (").toList ++ [apos] ++ dots3
    ++ [apos] ++ (") found in operator() signatures").toList

/-- Error message for a false flag with a pack in some signature. -/
def falsePackMsg (name : Str) : Str :=
  name ++ (": is_variadic=false but parameter pack (").toList ++ [apos] ++ dots3
    ++ [apos] ++ (") detected in operator() signatures").toList

/-- Embedding of `CPOVerifier.verify_variadic_flag`
(`cpo_verification_enhanced.py` lines 241-271). -/
def verify_variadic_flag (name content : Str) : List Str :=
  match flagOf content with
  | none => [missingFlagMsg name]
  | some flag =>
    let has_ellipsis := (operatorParams content).any (fun ps => hasSubstr dots3 ps)
    if flag && !has_ellipsis then [trueNoPackMsg name]
    else if !flag && has_ellipsis then [falsePackMsg name]
    else []

/-- Left cancellation of list append, used to separate the per-construct
verifier messages. -/
theorem append_left_cancel_str (a b c : Str) (h : a ++ b = a ++ c) : b = c := by
  induction a with
  | nil => simpa using h
  | cons x xs ih =>
    simp only [List.cons_append, List.cons.injEq] at h
    exact ih h.2

/-- C1: the shorthand `$T&&: x` parses to a forwarding argument with
`rendered_type = T&&`, base `T` and constraint contribution `T` as the
claim states, but the emitted forwarding expression is
`std::forward<T>(x)...` — `process_input` appends the pack-expansion
suffix whenever `is_forwarding` holds, not only when the argument is
variadic, so every non-variadic forwarding argument gets a stray pack
expansion (ill-formed C++ for a non-pack `T`). -/
theorem C1_forwarding_expression_pack_expanded_bug :
    processArgs [("$T&&: x").toList] =
      .ok [⟨("x").toList, some (("T").toList), ("T&&").toList, false, true⟩]
    ∧ argNamesStr [⟨("x").toList, some (("T").toList), ("T&&").toList, false, true⟩]
        = ("std::forward<T>(x)...").toList
    ∧ conceptContrib ⟨("x").toList, some (("T").toList), ("T&&").toList, false, true⟩
        = ("T").toList
    ∧ argNamesStr [⟨("x").toList, some (("T").toList), ("T&&").toList, false, true⟩]
        ≠ ("std::forward<T>(x)").toList := by
  refine ⟨rfl, by decide, by decide, by decide⟩

/-- C7: the noexcept-propagation check errors exactly when the number of
`nothrow_tag_invocable_c` noexcept expressions differs from one, errors
when the single expression does not mention `<name>_ftor`, and returns
no error otherwise. -/
theorem C7_noexcept_propagation_check (name content : Str) :
    ((noexceptFindall content).length ≠ 1 →
      verify_noexcept_propagation name content = [incorrectNoexceptMsg])
    ∧ (∀ m, noexceptFindall content = [m] →
        hasSubstr (name ++ ftorSuffix) m = false →
        verify_noexcept_propagation name content = [noexceptMismatchMsg])
    ∧ (∀ m, noexceptFindall content = [m] →
        hasSubstr (name ++ ftorSuffix) m = true →
        verify_noexcept_propagation name content = []) := by
  refine ⟨fun h => ?_, fun m hm hs => ?_, fun m hm hs => ?_⟩
  · simp [verify_noexcept_propagation, h]
  · simp [verify_noexcept_propagation, hm, hs]
  · simp [verify_noexcept_propagation, hm, hs]

/-- Witness for C7: a construct text with no noexcept expression, one
with a mismatched one, and one with a matching one. -/
theorem C7_noexcept_propagation_check_witness :
    verify_noexcept_propagation (("foo").toList) (("abc").toList)
      = [incorrectNoexceptMsg]
    ∧ verify_noexcept_propagation (("foo").toList)
        (("noexcept(nothrow_tag_invocable_c<bar_ftor>)").toList)
      = [noexceptMismatchMsg]
    ∧ verify_noexcept_propagation (("foo").toList)
        (("noexcept(nothrow_tag_invocable_c<foo_ftor, T>)").toList)
      = [] :=
  ⟨(C7_noexcept_propagation_check (("foo").toList) (("abc").toList)).1 (by decide),
   (C7_noexcept_propagation_check (("foo").toList)
       (("noexcept(nothrow_tag_invocable_c<bar_ftor>)").toList)).2.1
     (("bar_ftor").toList) (by decide) (by decide),
   (C7_noexcept_propagation_check (("foo").toList)
       (("noexcept(nothrow_tag_invocable_c<foo_ftor, T>)").toList)).2.2
     (("foo_ftor, T").toList) (by decide) (by decide)⟩

/-- C8: the variadic-flag check reports exactly one distinct defect for a
missing flag declaration, one for a true flag with no pack ellipsis in
any `operator()` parameter list, one for a false flag with a pack
present, and none when the flag agrees with pack presence. -/
theorem C8_variadic_flag_check (name content : Str) :
    (flagOf content = none →
      verify_variadic_flag name content = [missingFlagMsg name])
    ∧ (flagOf content = some true →
        (operatorParams content).any (fun ps => hasSubstr dots3 ps) = false →
        verify_variadic_flag name content = [trueNoPackMsg name])
    ∧ (flagOf content = some false →
        (operatorParams content).any (fun ps => hasSubstr dots3 ps) = true →
        verify_variadic_flag name content = [falsePackMsg name])
    ∧ (∀ b, flagOf content = some b →
        (operatorParams content).any (fun ps => hasSubstr dots3 ps) = b →
        verify_variadic_flag name content = [])
    ∧ missingFlagMsg name ≠ trueNoPackMsg name
    ∧ missingFlagMsg name ≠ falsePackMsg name
    ∧ trueNoPackMsg name ≠ falsePackMsg name := by
  refine ⟨fun h => ?_, fun h1 h2 => ?_, fun h1 h2 => ?_, fun b h1 h2 => ?_, ?_, ?_, ?_⟩
  · simp [verify_variadic_flag, h]
  · simp [verify_variadic_flag, h1, h2]
  · simp [verify_variadic_flag, h1, h2]
  · cases b <;> simp [verify_variadic_flag, h1, h2]
  · intro h
    unfold missingFlagMsg trueNoPackMsg at h
    simp only [List.append_assoc] at h
    exact absurd (append_left_cancel_str name _ _ h) (by decide)
  · intro h
    unfold missingFlagMsg falsePackMsg at h
    simp only [List.append_assoc] at h
    exact absurd (append_left_cancel_str name _ _ h) (by decide)
  · intro h
    unfold trueNoPackMsg falsePackMsg at h
    simp only [List.append_assoc] at h
    exact absurd (append_left_cancel_str name _ _ h) (by decide)

/-- Witness for C8: Scenario G — a construct declaring
`is_variadic = true` but with no pack in its `operator()` signature is
reported with exactly the mismatch defect. -/
theorem C8_variadic_flag_check_witness :
    verify_variadic_flag (("cp").toList)
      (("inline static constexpr bool is_variadic = true; constexpr auto operator()(T x) const;").toList)
      = [trueNoPackMsg (("cp").toList)] :=
  (C8_variadic_flag_check (("cp").toList)
      (("inline static constexpr bool is_variadic = true; constexpr auto operator()(T x) const;").toList)).2.1
    (by decide) (by decide)

/-- C9: a `runtime_dispatch` whose `type` is neither `bool` nor `string`
is ignored: validation succeeds with no dispatch info, and compilation
yields exactly the context of the same specification without the
dispatch key (in particular `dispatch_info` is `None` and no parameter
is synthesized). -/
theorem C9_unknown_dispatch_type_ignored (name : Str) (raw : List Str) (cfg : DispatchCfg)
    (h1 : cfg.dtype ≠ some (("bool").toList))
    (h2 : cfg.dtype ≠ some (("string").toList)) :
    processDispatch (some cfg) = .ok none
    ∧ compileSpec name raw (some cfg) = compileSpec name raw none
    ∧ (∀ ctx, compileSpec name raw (some cfg) = .ok ctx → ctx.dispatch_info = none) := by
  have hpd : processDispatch (some cfg) = .ok none := by
    simp only [processDispatch]
    rw [if_neg h1, if_neg h2]
  refine ⟨hpd, ?_, ?_⟩
  · unfold compileSpec
    rw [hpd]
    rfl
  · intro ctx hctx
    unfold compileSpec at hctx
    rw [hpd] at hctx
    cases hargs : processArgs raw with
    | error e => rw [hargs] at hctx; exact Except.noConfusion hctx
    | ok args =>
      rw [hargs] at hctx
      injection hctx with h
      rw [← h]
      rfl

/-- Witness for C9: an `enum` dispatch type is ignored on a concrete
specification. -/
theorem C9_unknown_dispatch_type_ignored_witness :
    processDispatch (some ⟨some (("enum").toList), some (("sel").toList), none⟩) = .ok none
    ∧ compileSpec (("cp").toList) [("int: x").toList]
        (some ⟨some (("enum").toList), some (("sel").toList), none⟩)
      = compileSpec (("cp").toList) [("int: x").toList] none
    ∧ (∀ ctx, compileSpec (("cp").toList) [("int: x").toList]
        (some ⟨some (("enum").toList), some (("sel").toList), none⟩) = .ok ctx →
        ctx.dispatch_info = none) :=
  C9_unknown_dispatch_type_ignored (("cp").toList) [("int: x").toList]
    ⟨some (("enum").toList), some (("sel").toList), none⟩ (by decide) (by decide)

/-- C5: invalid dispatch configurations — `bool` kind with an options
list present but not of length two, `string` kind with fewer than two
options, or either kind with a missing or empty dispatch-argument
name — abort the compile with a hard error, producing no context. -/
theorem C5_invalid_dispatch_errors (name : Str) (raw : List Str) (cfg : DispatchCfg)
    (h : (cfg.dtype = some (("bool").toList) ∧ ∃ opts, cfg.options = some opts ∧ opts.length ≠ 2)
       ∨ (cfg.dtype = some (("string").toList) ∧ ∃ opts, cfg.options = some opts ∧ opts.length < 2)
       ∨ ((cfg.dtype = some (("bool").toList) ∨ cfg.dtype = some (("string").toList))
            ∧ falsyOptStr cfg.dispatch_arg = true)) :
    ∃ msg, compileSpec name raw (some cfg) = .error msg := by
  have hd : ∃ msg, processDispatch (some cfg) = .error msg := by
    rcases h with ⟨hty, opts, hopts, hlen⟩ | ⟨hty, opts, hopts, hlen⟩ | ⟨hty | hty, hfalsy⟩
    · by_cases hf : falsyOptStr cfg.dispatch_arg = true
      · refine ⟨boolNeedsArgMsg, ?_⟩
        simp only [processDispatch]
        rw [if_pos hty, if_pos hf]
      · refine ⟨boolOptionsMsg, ?_⟩
        simp only [processDispatch]
        rw [if_pos hty, if_neg hf]
        simp only [hopts, Option.getD_some]
        rw [if_pos hlen]
    · have hne : ¬ cfg.dtype = some (("bool").toList) := by rw [hty]; decide
      by_cases hf : falsyOptStr cfg.dispatch_arg = true
      · refine ⟨stringNeedsArgMsg, ?_⟩
        simp only [processDispatch]
        rw [if_neg hne, if_pos hty, if_pos hf]
      · refine ⟨stringOptionsMsg, ?_⟩
        simp only [processDispatch]
        rw [if_neg hne, if_pos hty, if_neg hf]
        simp only [hopts]
        rw [if_pos hlen]
    · refine ⟨boolNeedsArgMsg, ?_⟩
      simp only [processDispatch]
      rw [if_pos hty, if_pos hfalsy]
    · have hne : ¬ cfg.dtype = some (("bool").toList) := by rw [hty]; decide
      refine ⟨stringNeedsArgMsg, ?_⟩
      simp only [processDispatch]
      rw [if_neg hne, if_pos hty, if_pos hfalsy]
  obtain ⟨msg, hmsg⟩ := hd
  refine ⟨msg, ?_⟩
  unfold compileSpec
  rw [hmsg]

/-- Witness for C5: Scenario F — a boolean dispatch descriptor with
three options is a hard error. -/
theorem C5_invalid_dispatch_errors_witness :
    ∃ msg, compileSpec (("cp").toList) [("$T&: input").toList]
      (some ⟨some (("bool").toList), some (("sel").toList),
             some [("a").toList, ("b").toList, ("c").toList]⟩) = .error msg :=
  C5_invalid_dispatch_errors (("cp").toList) [("$T&: input").toList]
    ⟨some (("bool").toList), some (("sel").toList),
     some [("a").toList, ("b").toList, ("c").toList]⟩
    (Or.inl ⟨rfl, [("a").toList, ("b").toList, ("c").toList], rfl, by decide⟩)

/-- C4: a valid boolean dispatch appends exactly the synthesized
`bool <arg> = false` parameter to the parameter-list string and leaves
the canonical constraint-argument string identical to the compile of
the same specification without the dispatch descriptor. -/
theorem C4_bool_dispatch_frame (name : Str) (raw : List Str) (da : Str)
    (opts : Option (List Str)) (args : List Arg)
    (hargs : processArgs raw = .ok args)
    (hda : da.isEmpty = false)
    (hopts : (opts.getD defaultBoolOptions).length = 2) :
    ∃ ctx ctx0,
      compileSpec name raw (some ⟨some (("bool").toList), some da, opts⟩) = .ok ctx
      ∧ compileSpec name raw none = .ok ctx0
      ∧ ctx.arg_pairs = (if ctx0.arg_pairs ≠ [] then
            ctx0.arg_pairs ++ commaSep ++ boolDispatchParam da
          else boolDispatchParam da)
      ∧ ctx.canonical_concept_args = ctx0.canonical_concept_args := by
  have hpd : processDispatch (some ⟨some (("bool").toList), some da, opts⟩)
      = .ok (some ⟨("bool").toList, da, opts.getD defaultBoolOptions⟩) := by
    simp [processDispatch, falsyOptStr, hda, hopts]
  refine ⟨buildCtx name args (some ⟨("bool").toList, da, opts.getD defaultBoolOptions⟩),
          buildCtx name args none, ?_, ?_, ?_, ?_⟩
  · unfold compileSpec
    rw [hpd, hargs]
  · unfold compileSpec
    rw [hargs]
    rfl
  · simp only [buildCtx, if_true]
  · simp only [buildCtx]

/-- Witness for C4: a concrete boolean-dispatch specification. -/
theorem C4_bool_dispatch_frame_witness :
    ∃ ctx ctx0,
      compileSpec (("cp").toList) [("$T&: input").toList]
        (some ⟨some (("bool").toList), some (("sel").toList), none⟩) = .ok ctx
      ∧ compileSpec (("cp").toList) [("$T&: input").toList] none = .ok ctx0
      ∧ ctx.arg_pairs = (if ctx0.arg_pairs ≠ [] then
            ctx0.arg_pairs ++ commaSep ++ boolDispatchParam (("sel").toList)
          else boolDispatchParam (("sel").toList))
      ∧ ctx.canonical_concept_args = ctx0.canonical_concept_args :=
  C4_bool_dispatch_frame (("cp").toList) [("$T&: input").toList] (("sel").toList)
    none [⟨("input").toList, some (("T").toList), ("T&").toList, false, false⟩]
    rfl (by decide) (by decide)

/-- The two possible effects of `add_param` on the declaration list. -/
theorem addParam_cases (tps : List Str) (n : Str) (b : Bool) :
    addParam tps n b = tps
    ∨ ∃ d, d ∉ tps ∧ addParam tps n b = tps ++ [d] := by
  simp only [addParam]
  split
  · exact Or.inl rfl
  · exact Or.inr ⟨paramDecl n b, by assumption, rfl⟩

/-- A successful token step leaves the declaration list unchanged or
appends one declaration that was not yet present. -/
theorem step_params_shape (st st' : TAState) (tok : Str) (h : step st tok = .ok st') :
    st'.template_params = st.template_params
    ∨ ∃ d, d ∉ st.template_params ∧ st'.template_params = st.template_params ++ [d] := by
  unfold step at h
  repeat' split at h
  all_goals first
    | exact Except.noConfusion h
    | (injection h with h2; rw [← h2]; exact Or.inl rfl)
    | (injection h with h2; rw [← h2]; exact addParam_cases _ _ _)

/-- The token loop preserves freedom from duplicate declarations. -/
theorem foldlM_step_nodup (ts : List Str) (st st' : TAState)
    (h : List.foldlM step st ts = .ok st')
    (hn : st.template_params.Nodup) : st'.template_params.Nodup := by
  induction ts generalizing st with
  | nil =>
    simp only [List.foldlM_nil] at h
    injection h with h2
    rw [← h2]
    exact hn
  | cons t ts ih =>
    rw [List.foldlM_cons] at h
    cases hstep : step st t with
    | error e =>
      rw [hstep] at h
      exact Except.noConfusion h
    | ok st1 =>
      rw [hstep] at h
      have hn1 : st1.template_params.Nodup := by
        rcases step_params_shape st st1 t hstep with heq | ⟨d, hd, heq⟩
        · rw [heq]; exact hn
        · rw [heq]
          refine List.Nodup.append hn (List.nodup_singleton d) ?_
          intro a ha hd2
          rw [List.mem_singleton] at hd2
          subst hd2
          exact hd ha
      exact ih st1 h hn1

/-- Reduction of the analyzer core once the bracket search has
succeeded. -/
theorem analyzeTargetCore_angle (target pre inner post : Str)
    (hfa : findAngle (strip target) = some (pre, inner, post)) :
    analyzeTargetCore target =
      match runTokens ((splitComma inner).map strip) with
      | .error e => .error e
      | .ok st => .ok (st.template_params,
          pre ++ ['<'] ++ List.intercalate commaSep st.new_parts ++ ['>'] ++ post) := by
  unfold analyzeTargetCore
  rw [hfa]

/-- A successful token step changes the declaration list exactly as the
stateless per-token classification prescribes: no effect for tokens
introducing no declaration, first-occurrence insertion otherwise. -/
theorem step_params_eq (st : TAState) (tok : Str) (st' : TAState)
    (h : step st tok = .ok st') :
    st'.template_params
      = (declOfToken tok).elim st.template_params (addUnique st.template_params) := by
  unfold step at h
  unfold declOfToken
  by_cases e1 : tok = []
  · rw [if_pos e1] at h
    rw [if_pos e1]
    injection h with h2
    rw [← h2]
    rfl
  · rw [if_neg e1] at h
    rw [if_neg e1]
    by_cases e2 : tok = dots3
    · rw [if_pos e2] at h
      rw [if_pos e2]
      injection h with h2
      rw [← h2]
      rfl
    · rw [if_neg e2] at h
      rw [if_neg e2]
      by_cases e3 : tok.head? = some '$'
      · rw [if_pos e3] at h
        rw [if_pos e3]
        by_cases e4 : hasSuffixCh dots3 (tok.drop 1) = true
        · rw [if_pos e4] at h
          rw [if_pos e4]
          by_cases e5 : isIdent ((tok.drop 1).take ((tok.drop 1).length - 3)) = true
          · rw [if_pos e5] at h
            rw [if_pos e5]
            injection h with h2
            rw [← h2]
            rfl
          · rw [if_neg e5] at h
            rw [if_neg e5]
            injection h with h2
            rw [← h2]
            rfl
        · rw [if_neg e4] at h
          rw [if_neg e4]
          by_cases e5 : isIdent (tok.drop 1) = true
          · rw [if_pos e5] at h
            rw [if_pos e5]
            injection h with h2
            rw [← h2]
            rfl
          · rw [if_neg e5] at h
            rw [if_neg e5]
            injection h with h2
            rw [← h2]
            rfl
      · rw [if_neg e3] at h
        rw [if_neg e3]
        by_cases e4 : barePack tok = true
        · rw [if_pos e4] at h
          exact Except.noConfusion h
        · rw [if_neg e4] at h
          injection h with h2
          rw [← h2]
          rfl

/-- The declaration list of a successful token loop is the left fold of
first-occurrence insertion over the induced declaration sequence. -/
theorem foldlM_step_params (ts : List Str) (st st' : TAState)
    (h : List.foldlM step st ts = .ok st') :
    st'.template_params
      = (ts.filterMap declOfToken).foldl addUnique st.template_params := by
  induction ts generalizing st with
  | nil =>
    simp only [List.foldlM_nil] at h
    injection h with h2
    rw [← h2]
    rfl
  | cons t ts ih =>
    rw [List.foldlM_cons] at h
    cases hstep : step st t with
    | error e =>
      rw [hstep] at h
      exact Except.noConfusion h
    | ok st1 =>
      rw [hstep] at h
      have h1 := step_params_eq st t st1 hstep
      have h2 := ih st1 h
      rw [h2, h1]
      cases hdt : declOfToken t with
      | none =>
        rw [List.filterMap_cons_none hdt]
        rfl
      | some d =>
        rw [List.filterMap_cons_some hdt, List.foldl_cons]
        rfl

/-- C3 counterexample: the accepted target `C<$T..., $T>` declares the
parameter name `T` twice (once as a pack and once plain — `add_param`
deduplicates whole declarations, not names) and returns the pack
declaration before the plain one, refuting both the name-exactly-once
and the plain-before-pack conjuncts of the claim. -/
theorem C3_counterexample_name_twice_pack_first :
    analyzeTargetParams (("C<$T..., $T>").toList)
      = .ok [paramDecl (("T").toList) true, paramDecl (("T").toList) false]
    ∧ plainBeforePack [paramDecl (("T").toList) true, paramDecl (("T").toList) false]
      = false
    ∧ List.map declaredName
        [paramDecl (("T").toList) true, paramDecl (("T").toList) false]
      = [("T").toList, ("T").toList]
    ∧ ¬ ([("T").toList, ("T").toList] : List Str).Nodup :=
  ⟨rfl, by decide, by decide, by decide⟩

/-- C3 (amended): for every accepted target expression the returned
template-parameter declaration list contains each declaration exactly
once, even when that parameter is referenced multiple times in the
bracketed argument list, and it equals the first-occurrence
deduplication of the per-token declaration sequence — first-reference
order, in which a name referenced both plain and as a pack yields two
declarations and a pack declaration may precede a plain one. -/
theorem C3_params_once_first_reference (target : Str) (ps : List Str)
    (h : analyzeTargetParams target = .ok ps) :
    ps.Nodup
    ∧ ∀ pre inner post, findAngle (strip target) = some (pre, inner, post) →
        ps = firstRefDecls ((splitComma inner).map strip) := by
  constructor
  · unfold analyzeTargetParams at h
    cases hfa : findAngle (strip target) with
    | none =>
      unfold analyzeTargetCore at h
      rw [hfa] at h
      by_cases hdots : hasSubstr dots3 (strip target) = true
      · rw [if_pos hdots] at h
        simp only [Except.map] at h
        injection h with h2
        rw [← h2]
        exact List.nodup_singleton _
      · rw [if_neg hdots] at h
        simp only [Except.map] at h
        injection h with h2
        rw [← h2]
        exact List.nodup_nil
    | some v =>
      obtain ⟨pre, inner, post⟩ := v
      rw [analyzeTargetCore_angle target pre inner post hfa] at h
      cases hrun : runTokens ((splitComma inner).map strip) with
      | error e =>
        rw [hrun] at h
        exact Except.noConfusion h
      | ok st =>
        rw [hrun] at h
        injection h with h2
        rw [← h2]
        exact foldlM_step_nodup _ ⟨[], []⟩ st hrun List.nodup_nil
  · intro pre inner post hfa
    unfold analyzeTargetParams at h
    rw [analyzeTargetCore_angle target pre inner post hfa] at h
    cases hrun : runTokens ((splitComma inner).map strip) with
    | error e =>
      rw [hrun] at h
      exact Except.noConfusion h
    | ok st =>
      rw [hrun] at h
      injection h with h2
      rw [← h2]
      exact foldlM_step_params _ ⟨[], []⟩ st hrun

/-- Witness for C3 (amended): the accepted target `C<$T, $Alloc>` has a
duplicate-free declaration list equal to the first-reference
deduplication of its token declarations. -/
theorem C3_params_once_first_reference_witness :
    (([("typename T").toList, ("typename Alloc").toList] : List Str).Nodup)
    ∧ [("typename T").toList, ("typename Alloc").toList]
        = firstRefDecls ((splitComma (("$T, $Alloc").toList)).map strip) :=
  ⟨(C3_params_once_first_reference (("C<$T, $Alloc>").toList)
      [("typename T").toList, ("typename Alloc").toList] rfl).1,
   (C3_params_once_first_reference (("C<$T, $Alloc>").toList)
      [("typename T").toList, ("typename Alloc").toList] rfl).2
     (("C").toList) (("$T, $Alloc").toList) [] rfl⟩

/-- A bare-pack token always makes the token step fail with the error
message that names it. -/
theorem step_error_of_barePack (st : TAState) (t : Str) (hb : barePack t = true) :
    step st t = .error (barePackMsg t) := by
  have h1 : t ≠ [] := by
    intro h
    rw [h] at hb
    exact absurd hb (by decide)
  have h2 : t ≠ dots3 := by
    intro h
    rw [h] at hb
    exact absurd hb (by decide)
  have h3 : ¬ t.head? = some '$' := by
    intro hh
    cases t with
    | nil => exact h1 rfl
    | cons c rest =>
      simp only [List.head?, Option.some.injEq] at hh
      subst hh
      unfold barePack at hb
      rw [Bool.and_eq_true] at hb
      exact absurd hb.1 (by decide)
  unfold step
  rw [if_neg h1, if_neg h2, if_neg h3, if_pos hb]

/-- A token that is not a bare pack never makes the token step fail. -/
theorem step_ok_of_not_barePack (st : TAState) (t : Str) (hb : ¬ barePack t = true) :
    ∃ st', step st t = .ok st' := by
  unfold step
  rw [if_neg hb]
  repeat' split
  all_goals exact ⟨_, rfl⟩

/-- The token loop fails on the first bare-pack token of the list,
whatever state it starts from. -/
theorem foldlM_step_bare_pack_error (ts : List Str) (st : TAState)
    (hex : ts.any barePack = true) :
    ∃ t, t ∈ ts ∧ barePack t = true
      ∧ List.foldlM step st ts = .error (barePackMsg t) := by
  induction ts generalizing st with
  | nil => simp at hex
  | cons t ts ih =>
    by_cases hb : barePack t = true
    · refine ⟨t, List.mem_cons_self t ts, hb, ?_⟩
      rw [List.foldlM_cons, step_error_of_barePack st t hb]
      rfl
    · have hex' : ts.any barePack = true := by
        rw [List.any_cons] at hex
        rcases Bool.or_eq_true_iff.mp hex with h | h
        · exact absurd h hb
        · exact h
      obtain ⟨st1, hst1⟩ := step_ok_of_not_barePack st t hb
      obtain ⟨u, hu, hbu, hfold⟩ := ih st1 hex'
      refine ⟨u, List.mem_cons_of_mem t hu, hbu, ?_⟩
      rw [List.foldlM_cons, hst1]
      exact hfold

/-- C6: a target whose bracketed token list contains a bare identifier
followed by the pack ellipsis without the `$` marker makes the analyzer
fail with a hard parse error naming the offending token (neither
promoting it to a pack parameter nor passing it through). -/
theorem C6_bare_pack_hard_error (target pre inner post : Str)
    (hfa : findAngle (strip target) = some (pre, inner, post))
    (hex : ((splitComma inner).map strip).any barePack = true) :
    ∃ t, t ∈ (splitComma inner).map strip ∧ barePack t = true
      ∧ analyzeTarget target = .error (barePackMsg t)
      ∧ analyzeTargetParams target = .error (barePackMsg t) := by
  obtain ⟨t, ht, hbt, hfold⟩ :=
    foldlM_step_bare_pack_error ((splitComma inner).map strip) ⟨[], []⟩ hex
  have hcore : analyzeTargetCore target = .error (barePackMsg t) := by
    rw [analyzeTargetCore_angle target pre inner post hfa]
    unfold runTokens
    rw [hfold]
  refine ⟨t, ht, hbt, ?_, ?_⟩
  · unfold analyzeTarget
    rw [hcore]
  · unfold analyzeTargetParams
    rw [hcore]
    rfl

/-- Witness for C6: Scenario E — the target `Container<Rest...>` is a
hard parse error naming `Rest...`. -/
theorem C6_bare_pack_hard_error_witness :
    ∃ t, t ∈ (splitComma (("Rest...").toList)).map strip ∧ barePack t = true
      ∧ analyzeTarget (("Container<Rest...>").toList) = .error (barePackMsg t)
      ∧ analyzeTargetParams (("Container<Rest...>").toList) = .error (barePackMsg t) :=
  C6_bare_pack_hard_error (("Container<Rest...>").toList) (("Container").toList)
    (("Rest...").toList) [] (by decide) (by decide)

/-- C10: a `$`-marked token whose remainder, after removing a trailing
pack ellipsis, is not a valid identifier causes no error and declares no
template parameter: the token loop emits it as a concrete token with
only the `$` marker stripped. -/
theorem C10_invalid_dollar_token_passthrough (st : TAState) (tok : Str)
    (h1 : tok.head? = some '$')
    (h2 : isIdent (if hasSuffixCh dots3 (tok.drop 1) then
            (tok.drop 1).take ((tok.drop 1).length - 3)
          else tok.drop 1) = false) :
    step st tok = .ok ⟨st.template_params, st.new_parts ++ [tok.drop 1]⟩ := by
  have hne : tok ≠ [] := by
    intro h
    rw [h] at h1
    exact Option.noConfusion h1
  have hnd : tok ≠ dots3 := by
    intro h
    rw [h] at h1
    exact absurd h1 (by decide)
  unfold step
  rw [if_neg hne, if_neg hnd, if_pos h1]
  by_cases hs : hasSuffixCh dots3 (tok.drop 1) = true
  · rw [if_pos hs]
    rw [if_pos hs] at h2
    have h2' : ¬ isIdent ((tok.drop 1).take ((tok.drop 1).length - 3)) = true := by
      rw [h2]
      decide
    rw [if_neg h2']
  · rw [if_neg hs]
    rw [if_neg hs] at h2
    have h2' : ¬ isIdent (tok.drop 1) = true := by
      rw [h2]
      decide
    rw [if_neg h2']

/-- Witness for C10: the token `$std::vector` is passed through as
`std::vector` with no parameter declared and no error. -/
theorem C10_invalid_dollar_token_passthrough_witness :
    step ⟨[], []⟩ (("$std::vector").toList)
      = .ok ⟨[], [("std::vector").toList]⟩ :=
  C10_invalid_dollar_token_passthrough ⟨[], []⟩ (("$std::vector").toList)
    (by decide) (by decide)

/-- A string without a colon has no last-colon split. -/
theorem splitLastColon_none (s : Str) (h : ':' ∉ s) : splitLastColon s = none := by
  induction s with
  | nil => rfl
  | cons c t ih =>
    unfold splitLastColon
    rw [ih (fun hm => h (List.mem_cons_of_mem c hm))]
    have hne : ¬ c = ':' := by
      intro hc
      subst hc
      exact h (List.mem_cons_self ':' t)
    rw [if_neg hne]

/-- The last-colon split lands on the final colon when everything after
it is colon-free. -/
theorem splitLastColon_append (xs ys : Str) (h : ':' ∉ ys) :
    splitLastColon (xs ++ ':' :: ys) = some (xs, ys) := by
  induction xs with
  | nil =>
    show splitLastColon (':' :: ys) = _
    unfold splitLastColon
    rw [splitLastColon_none ys h]
    simp
  | cons x xs ih =>
    show splitLastColon (x :: (xs ++ ':' :: ys)) = _
    unfold splitLastColon
    rw [ih]

/-- Length never grows under `dropWhile`. -/
theorem dropWhile_length_le (p : Char → Bool) (l : Str) :
    (l.dropWhile p).length ≤ l.length :=
  (List.dropWhile_suffix p).length_le

/-- A kept head survives `dropWhile` only if the predicate rejects it. -/
theorem head_false_of_dropWhile_eq {p : Char → Bool} {c : Char} {t : Str}
    (h : (c :: t).dropWhile p = c :: t) : p c = false := by
  by_contra hc
  rw [Bool.not_eq_false] at hc
  rw [List.dropWhile_cons, if_pos hc] at h
  have h1 := congrArg List.length h
  have h2 := dropWhile_length_le p t
  simp at h1
  omega

/-- A string equal to its own strip is equal to its own lstrip. -/
theorem lstrip_of_strip_eq {s : Str} (h : strip s = s) : lstrip s = s := by
  have h1 : (lstrip s).length ≤ s.length := dropWhile_length_le _ _
  have h2 : (strip s).length ≤ (lstrip s).length := by
    unfold strip rstrip
    calc ((lstrip s).reverse.dropWhile isSpaceCh).reverse.length
        = ((lstrip s).reverse.dropWhile isSpaceCh).length := List.length_reverse _
      _ ≤ (lstrip s).reverse.length := dropWhile_length_le _ _
      _ = (lstrip s).length := List.length_reverse _
  rw [h] at h2
  exact (List.dropWhile_suffix _).eq_of_length (le_antisymm h1 h2)

/-- A string equal to its own strip is equal to its own rstrip. -/
theorem rstrip_of_strip_eq {s : Str} (h : strip s = s) : rstrip s = s := by
  have hl := lstrip_of_strip_eq h
  unfold strip at h
  rw [hl] at h
  exact h

/-- `dropWhile` ignores anything appended after a self-stable nonempty
string. -/
theorem dropWhile_eq_self_append {p : Char → Bool} {y : Str}
    (hy : y.dropWhile p = y) (hne : y ≠ []) (x : Str) :
    (y ++ x).dropWhile p = y ++ x := by
  cases y with
  | nil => exact absurd rfl hne
  | cons c t =>
    have hc := head_false_of_dropWhile_eq hy
    rw [List.cons_append, List.dropWhile_cons, if_neg (by simp [hc])]

/-- Appending an (optional) pack ellipsis to a whitespace-clean type
leaves the combination whitespace-clean. -/
theorem strip_append_pack (w d : Str) (hw : strip w = w) (hd : d = [] ∨ d = dots3) :
    strip (w ++ d) = w ++ d := by
  rcases hd with rfl | rfl
  · simpa using hw
  · have hls : lstrip (w ++ dots3) = w ++ dots3 := by
      cases hwc : w with
      | nil => decide
      | cons c t =>
        have hc : isSpaceCh c = false := by
          rw [hwc] at hw
          exact head_false_of_dropWhile_eq (lstrip_of_strip_eq hw)
        unfold lstrip
        rw [List.cons_append, List.dropWhile_cons, if_neg (by simp [hc])]
    have hrs : rstrip (w ++ dots3) = w ++ dots3 := by
      unfold rstrip
      rw [List.reverse_append]
      rw [show dots3.reverse = dots3 from rfl]
      rw [dropWhile_eq_self_append (by decide) (by decide) w.reverse]
      rw [List.reverse_append, List.reverse_reverse]
      rw [show dots3.reverse = dots3 from rfl]
    unfold strip
    rw [hls, hrs]

/-- The ellipsis token written as an explicit character list. -/
theorem dots3_cons : dots3 = '.' :: '.' :: '.' :: [] := rfl

/-- Destructuring of a successful prefix test on two cons cells. -/
theorem hasPrefixCh_cons {p c : Char} {ps cs : Str}
    (h : hasPrefixCh (p :: ps) (c :: cs) = true) : p = c ∧ hasPrefixCh ps cs = true := by
  unfold hasPrefixCh at h
  rw [Bool.and_eq_true, beq_iff_eq] at h
  exact h

/-- `replaceSubAux` leaves a string without any occurrence of the
pattern unchanged, for every fuel. -/
theorem replaceSubAux_no_occ (pat repl : Str) (fuel : Nat) (s : Str)
    (h : hasSubstr pat s = false) : replaceSubAux pat repl fuel s = s := by
  induction fuel generalizing s with
  | zero => rfl
  | succ f ih =>
    cases s with
    | nil => rfl
    | cons c t =>
      unfold hasSubstr at h
      rw [Bool.or_eq_false_iff] at h
      unfold replaceSubAux
      rw [if_neg (by simp [h.1])]
      rw [ih t h.2]

/-- Python `replace` leaves a string without the pattern unchanged. -/
theorem replaceSub_no_occ (pat repl s : Str) (h : hasSubstr pat s = false) :
    replaceSub pat repl s = s := replaceSubAux_no_occ pat repl s.length s h

/-- Removing every ellipsis from `w ++ "..."` gives back `w` whenever
`w` itself contains no ellipsis (for any sufficient fuel). -/
theorem replaceSubAux_append_dots (w : Str) (fuel : Nat)
    (h : hasSubstr dots3 w = false) (hf : w.length + 3 ≤ fuel) :
    replaceSubAux dots3 [] fuel (w ++ dots3) = w := by
  induction w generalizing fuel with
  | nil =>
    match fuel, hf with
    | f + 1, _ =>
      show replaceSubAux dots3 [] (f + 1) ('.' :: (("..").toList)) = []
      unfold replaceSubAux
      rw [if_pos (by decide)]
      show replaceSubAux dots3 [] f [] = []
      cases f <;> rfl
  | cons c w' ih =>
    obtain ⟨f, rfl⟩ : ∃ f, fuel = f + 1 := ⟨fuel - 1, by omega⟩
    unfold hasSubstr at h
    rw [Bool.or_eq_false_iff] at h
    obtain ⟨hpre, hsub⟩ := h
    by_cases hp : hasPrefixCh dots3 (c :: (w' ++ dots3)) = true
    · rw [dots3_cons] at hp
      obtain ⟨hc, hp2⟩ := hasPrefixCh_cons hp
      subst hc
      cases w' with
      | nil =>
        show replaceSubAux dots3 [] (f + 1) ('.' :: '.' :: '.' :: '.' :: ([] : Str)) = ['.']
        unfold replaceSubAux
        rw [if_pos (by decide)]
        show replaceSubAux dots3 [] f ['.'] = ['.']
        exact replaceSubAux_no_occ dots3 [] f _ (by decide)
      | cons c2 w'' =>
        rw [List.cons_append] at hp2
        obtain ⟨hc2, hp3⟩ := hasPrefixCh_cons hp2
        subst hc2
        cases w'' with
        | nil =>
          show replaceSubAux dots3 [] (f + 1)
              ('.' :: '.' :: '.' :: '.' :: '.' :: ([] : Str)) = ['.', '.']
          unfold replaceSubAux
          rw [if_pos (by decide)]
          show replaceSubAux dots3 [] f ['.', '.'] = ['.', '.']
          exact replaceSubAux_no_occ dots3 [] f _ (by decide)
        | cons c3 rest =>
          exfalso
          rw [List.cons_append] at hp3
          obtain ⟨hc3, _⟩ := hasPrefixCh_cons hp3
          subst hc3
          rw [dots3_cons] at hpre
          simp [hasPrefixCh] at hpre
    · show replaceSubAux dots3 [] (f + 1) (c :: (w' ++ dots3)) = c :: w'
      unfold replaceSubAux
      rw [Bool.not_eq_true] at hp
      rw [if_neg (by simp [hp])]
      rw [ih f hsub (by simp only [List.length_cons] at hf; omega)]

/-- Python `replace` of the ellipsis undoes a pack suffix appended to an
ellipsis-free string. -/
theorem replaceSub_append_dots (w : Str) (h : hasSubstr dots3 w = false) :
    replaceSub dots3 [] (w ++ dots3) = w := by
  unfold replaceSub
  exact replaceSubAux_append_dots w _ h (by simp [List.length_append]; rfl)

/-- One non-forwarding argument whose rendered type is whitespace-clean,
not `$`-marked and free of embedded ellipses (and whose name is
colon-free) round-trips through the re-parse to exactly its
own constraint contribution. -/
theorem reparse_single (a : Arg)
    (h1 : a.is_forwarding = false) (h2 : strip a.full = a.full)
    (h3 : a.full.head? ≠ some '$') (h4 : hasSubstr dots3 a.full = false)
    (h5 : ':' ∉ a.name) :
    reparseConstraintType a = .ok (conceptContrib a) := by
  unfold reparseConstraintType renderedParamType
  set d := (if a.is_variadic then dots3 else ([] : Str)) with hd
  have hdcase : d = [] ∨ d = dots3 := by
    rw [hd]
    by_cases hv : a.is_variadic <;> simp [hv]
  have hsplit : splitLastColon ((a.full ++ d) ++ (": ").toList ++ a.name)
      = some (a.full ++ d, ' ' :: a.name) := by
    have harr : (a.full ++ d) ++ (": ").toList ++ a.name
        = (a.full ++ d) ++ ':' :: (' ' :: a.name) := by
      simp [List.append_assoc]
    rw [harr]
    refine splitLastColon_append _ _ ?_
    intro hm
    rcases List.mem_cons.mp hm with hsp | hm2
    · exact absurd hsp (by decide)
    · exact h5 hm2
  unfold parseArgPair
  rw [hsplit]
  show (parseArgPairBody (a.full ++ d) (' ' :: a.name)).map conceptContrib
      = .ok (conceptContrib a)
  have hstrip : strip (a.full ++ d) = a.full ++ d := strip_append_pack a.full d h2 hdcase
  have hng : ¬ (strip (a.full ++ d)).head? = some '$' := by
    rw [hstrip]
    rcases hdcase with hdc | hdc <;> rw [hdc]
    · simpa using h3
    · cases hfc : a.full with
      | nil => decide
      | cons c t =>
        intro hh
        rw [List.cons_append] at hh
        simp only [List.head?, Option.some.injEq] at hh
        rw [hfc] at h3
        exact h3 (by simp [hh])
  unfold parseArgPairBody
  rw [if_neg hng]
  simp only [Except.map]
  have hcc : conceptContrib a = a.full := by
    simp [conceptContrib, h1]
  rw [hcc]
  show Except.ok (replaceSub dots3 [] (strip (a.full ++ d))) = Except.ok a.full
  rw [hstrip]
  rcases hdcase with hdc | hdc <;> rw [hdc]
  · rw [List.append_nil, replaceSub_no_occ dots3 [] a.full h4]
  · rw [replaceSub_append_dots a.full h4]

/-- C2 counterexample: for the forwarding argument parsed from
`$T&&: x` the direct constraint contribution is `T`, but re-parsing the
rendered parameter type `T&&` (whose `$` marker is gone) re-derives
`T&&`, so the round trip fails on forwarding arguments. -/
theorem C2_counterexample_forwarding_roundtrip :
    processArgs [("$T&&: x").toList]
      = .ok [⟨("x").toList, some (("T").toList), ("T&&").toList, false, true⟩]
    ∧ List.map conceptContrib
        [⟨("x").toList, some (("T").toList), ("T&&").toList, false, true⟩]
      = [("T").toList]
    ∧ reparseConstraintTypes
        [⟨("x").toList, some (("T").toList), ("T&&").toList, false, true⟩]
      = .ok [("T&&").toList]
    ∧ (("T").toList : Str) ≠ ("T&&").toList :=
  ⟨rfl, by decide, rfl, by decide⟩

/-- C2 (amended): round-trip stability holds for every Argument list
without forwarding arguments (rendered types whitespace-clean, not
`$`-marked, ellipsis-free; names colon-free): re-parsing
the rendered parameter types and re-deriving constraint-argument types
reproduces the directly compiled constraint-argument list. -/
theorem C2_roundtrip_stability_no_forwarding (args : List Arg)
    (h : ∀ a ∈ args, a.is_forwarding = false ∧ strip a.full = a.full
        ∧ a.full.head? ≠ some '$' ∧ hasSubstr dots3 a.full = false
        ∧ ':' ∉ a.name) :
    reparseConstraintTypes args = .ok (args.map conceptContrib) := by
  unfold reparseConstraintTypes
  induction args with
  | nil => rfl
  | cons a args ih =>
    obtain ⟨h1, h2, h3, h4, h5⟩ := h a (List.mem_cons_self a args)
    rw [List.mapM_cons, reparse_single a h1 h2 h3 h4 h5]
    show ((args.mapM reparseConstraintType) >>= fun bs => pure (conceptContrib a :: bs))
        = Except.ok (conceptContrib a :: args.map conceptContrib)
    rw [ih (fun b hb => h b (List.mem_cons_of_mem a hb))]
    rfl

/-- Witness for C2 (amended): a concrete list with a concrete type, a
plain generic and a variadic concrete argument round-trips exactly. -/
theorem C2_roundtrip_stability_no_forwarding_witness :
    reparseConstraintTypes
        [⟨("value").toList, none, ("int").toList, false, false⟩,
         ⟨("y").toList, some (("T").toList), ("T").toList, false, false⟩,
         ⟨("xs").toList, none, ("int").toList, true, false⟩]
      = .ok (List.map conceptContrib
        [⟨("value").toList, none, ("int").toList, false, false⟩,
         ⟨("y").toList, some (("T").toList), ("T").toList, false, false⟩,
         ⟨("xs").toList, none, ("int").toList, true, false⟩]) :=
  C2_roundtrip_stability_no_forwarding
    [⟨("value").toList, none, ("int").toList, false, false⟩,
     ⟨("y").toList, some (("T").toList), ("T").toList, false, false⟩,
     ⟨("xs").toList, none, ("int").toList, true, false⟩]
    (by decide)

end TInCuP
